import Mathlib

/-!
Verification of the sipgateio-google-deployer setup wizard.

Text is embedded as `List Char`; JavaScript strings become `List Char`
(`Str`), JS `undefined`/`null` become `Option`, and JS objects used as
ordered string maps become association lists with JS object-assignment
semantics (`objInsert`).  Each definition mirrors one function of the
source (`src/config.ts`, `src/utils` alias `part_000`), keeping its name.
-/

/-- Character-list representation of a JavaScript string. -/
abbrev Str := List Char

/-- Conversion from a Lean string literal to the `Str` representation. -/
def str (s : String) : Str := s.toList

/-- The double-quote character (code 34). -/
def dq : Char := Char.ofNat 34

/-- The single-quote character (code 39). -/
def sqChar : Char := Char.ofNat 39

/-- Whitespace characters removed by JavaScript `String.prototype.trim`
(the source only ever meets spaces, tabs and CR/LF). -/
def isJsWs (c : Char) : Bool :=
  c == ' ' || c == '\t' || c == '\n' || c == '\r'

/-- JavaScript `s.trim()`: drop whitespace from both ends. -/
def jsTrim (l : Str) : Str :=
  ((l.dropWhile isJsWs).reverse.dropWhile isJsWs).reverse

/-- Index of the first occurrence of a character, `none` when absent
(JS `indexOf` returning `-1` is modelled by `none`). -/
def firstIdx (c : Char) : Str → Option Nat
  | [] => none
  | a :: rest => if a == c then some 0 else (firstIdx c rest).map (· + 1)

/-- JS `line.slice(0, line.indexOf('='))`: on a missing `=`, `indexOf`
yields `-1` and `slice(0, -1)` drops the final character. -/
def sliceBeforeEq (l : Str) : Str :=
  match firstIdx '=' l with
  | some i => l.take i
  | none => l.take (l.length - 1)

/-- JS `line.slice(line.indexOf('=') + 1, line.length)`: on a missing `=`
this is `slice(0)`, the whole line. -/
def sliceAfterEq (l : Str) : Str :=
  match firstIdx '=' l with
  | some i => l.drop (i + 1)
  | none => l

/-- Quote characters excluded by the regex `[^'"]+`. -/
def isQuote (c : Char) : Bool := c == sqChar || c == dq

/-- Accumulator-passing scanner behind `quoteFreeRuns`; `cur` holds the
current run reversed. -/
def quoteFreeRunsAux : Str → Str → List Str
  | [], cur => if cur.isEmpty then [] else [cur.reverse]
  | c :: rest, cur =>
    if isQuote c then
      if cur.isEmpty then quoteFreeRunsAux rest []
      else cur.reverse :: quoteFreeRunsAux rest []
    else quoteFreeRunsAux rest (c :: cur)

/-- JS `s.match(/[^'"]+/gm)`: the list of maximal runs of characters that
are neither single nor double quotes (`[]` models a `null` match). -/
def quoteFreeRuns (l : Str) : List Str := quoteFreeRunsAux l []

/-- JS `hay.includes(sub)`: substring containment. -/
def jsIncludes (hay sub : Str) : Bool :=
  (List.range (hay.length + 1)).any fun i => ((hay.drop i).take sub.length) == sub

/-- JS `content.split('\n')` (`"".split` gives `[""]`). -/
def splitLines : Str → List Str
  | [] => [[]]
  | c :: rest =>
    if c == '\n' then [] :: splitLines rest
    else
      match splitLines rest with
      | [] => [[c]]
      | l :: ls => (c :: l) :: ls

/-- JS `line.startsWith(h)` for a one-character needle. -/
def jsStartsWith (l : Str) (c : Char) : Bool :=
  match l with
  | [] => false
  | a :: _ => a == c

/-- JS `s.toLowerCase()` (source data is ASCII, where JS and `Char.toLower`
agree). -/
def lowerStr (l : Str) : Str := l.map Char.toLower

/-- `Config` of `src/types`: an ordered mapping from variable names to
string values, embedded as an association list with JS-object insertion
semantics. -/
abbrev Config := List (Str × Str)

/-- JS `obj[k] = v` on an object kept in insertion order: an existing key
keeps its position and gets the new value, a new key is appended. -/
def objInsert (m : Config) (k v : Str) : Config :=
  if m.any (fun p => p.1 == k) then
    m.map (fun p => if p.1 == k then (k, v) else p)
  else m ++ [(k, v)]

/-- Key lookup in a `Config` (JS property access returning `undefined`
for an absent key). -/
def lookupCfg (m : Config) (k : Str) : Option Str :=
  (m.find? (fun p => p.1 == k)).map (·.2)

/-- Key-presence test in a `Config` (`k in obj`). -/
def hasKey (m : Config) (k : Str) : Bool := m.any (fun p => p.1 == k)

/-- `extractEnv` of `src/config.ts` (lines 12-23): name before the first
`=` trimmed, and the match array of quote-free runs of the trimmed text
after it (`none` models the regex returning `null`). -/
def extractEnv (line : Str) : Str × Option (List Str) :=
  ( jsTrim (sliceBeforeEq line)
  , match quoteFreeRuns (jsTrim (sliceAfterEq line)) with
    | [] => none
    | rs => some rs )

/-- The line filter of `loadConfig` (line 41): keep lines that do not
start with `#` and are not blank after trimming. -/
def configLines (content : Str) : List Str :=
  (splitLines content).filter
    fun line => !(jsStartsWith line '#') && !(jsTrim line).isEmpty

/-- The body of the `forEach` of `loadConfig` (lines 42-45):
`cfgObj[envName] = envValue?.[0] ?? ''`. -/
def loadStep (cfg : Config) (line : Str) : Config :=
  let e := extractEnv line
  objInsert cfg e.1 ((e.2.bind List.head?).getD [])

/-- `loadConfig` of `src/config.ts` (lines 33-49) applied to file
content: fold the surviving lines into an object, taking
`envValue?.[0] ?? ''` as the value. -/
def loadConfig (content : Str) : Config :=
  (configLines content).foldl loadStep []

/-- Newline join used by the serializer. -/
def joinLines : List Str → Str
  | [] => []
  | [l] => l
  | l :: ls => l ++ '\n' :: joinLines ls

/-- Modelled from the spec: `buildEnv` (imported from `./utils` but absent
from the sources) — "`save` serializes the mapping in insertion order as
`KEY=VALUE` lines (values containing no further escaping)". -/
def buildEnv (cfg : Config) : Str :=
  joinLines (cfg.map fun p => p.1 ++ '=' :: p.2)

/-- ANSI escape `\x1B[30m` of the source constants. -/
def COLOR_GRAY : Str := str "\x1B[30m"

/-- ANSI escape `\x1B[36m`. -/
def COLOR_CYAN : Str := str "\x1B[36m"

/-- ANSI escape `\x1B[0m`. -/
def COLOR_DEFAULT : Str := str "\x1B[0m"

/-- ANSI escape `\x1B[33m`. -/
def COLOR_YELLOW : Str := str "\x1B[33m"

/-- An inquirer question as built by `composeQuestion` (the `type` field,
constantly `'input'`, is kept as `qtype`). -/
structure Question where
  prefixText : Str
  name : Str
  message : Str
  qtype : Str
  default : Option (List Str)
deriving DecidableEq, Repr

/-- `composeQuestion` of `src/utils` (`part_000` lines 46-60): the
question for one assignment line, given the accumulated comment text.
`default` is the whole match array when non-empty, otherwise absent
(`envDefaultValue.length > 0 ? envDefaultValue : undefined`). -/
def composeQuestion (line : Str) (comment : Str) : Question :=
  let envName := jsTrim (sliceBeforeEq line)
  let envDefaultValue := quoteFreeRuns (jsTrim (sliceAfterEq line))
  { prefixText := '\n' :: comment ++ COLOR_CYAN ++ str "⚙" ++ COLOR_DEFAULT
  , name := envName
  , message := envName ++ str " ="
  , qtype := str "input"
  , default := if envDefaultValue.isEmpty then none else some envDefaultValue }

/-- Recursion behind `extractQuestions`, threading the comment
accumulator. -/
def extractQuestionsAux : List Str → Str → List Question
  | [], _ => []
  | line :: rest, comment =>
    if jsStartsWith line '#' then
      extractQuestionsAux rest
        (comment ++ COLOR_GRAY ++ str "INFO: "
          ++ jsTrim (match firstIdx '#' line with
                     | some i => line.drop (i + 1)
                     | none => line)
          ++ COLOR_DEFAULT ++ str "\n")
    else composeQuestion line comment :: extractQuestionsAux rest []

/-- `extractQuestions` of `src/utils` (`part_000` lines 62-79): comment
lines accumulate help text, every other line emits a question and resets
the accumulator.  The function can not fail: there is no error case in
its type. -/
def extractQuestions (envArray : List Str) : List Question :=
  extractQuestionsAux envArray []

/-- `Math.max(...strings.map(s => s.length))` — for the non-empty lists
the callers pass, the fold below agrees with JS `Math.max`. -/
def maxLenOf (strings : List String) : Nat :=
  (strings.map String.length).foldr Nat.max 0

/-- `calculateTabs` of `src/utils` (`part_000` lines 81-88): the chained
maps of the source. -/
def calculateTabs (strings : List String) : List Nat :=
  (((strings.map String.length).map
      (fun l => maxLenOf strings - l)).map
      (fun d => d / 8)).map
      (fun f => f + 1)

/-- Rendering model of a terminal tab stop of width 8: the column a tab
advances to from column `c`. -/
def tabStop (c : Nat) : Nat := 8 * (c / 8 + 1)

/-- Column reached after printing `len` characters from column 0 followed
by `k` tab characters. -/
def colAfterTabs (len : Nat) : Nat → Nat
  | 0 => len
  | k + 1 => tabStop (colAfterTabs len k)

/-- A wizard answer value: inquirer answers are strings, except that an
accepted array default arrives as an array
(`interactivelyGenerateConfig` lines 103-107 flatten those). -/
inductive EnvVal where
  | s (v : Str)
  | arr (vs : List Str)
deriving DecidableEq, Repr

/-- Observable file-system effects of one wizard run. -/
inductive WizEvent where
  | fileWrite (path : Str) (content : Str)
  | warn
deriving DecidableEq, Repr

/-- The prompt answers consumed by one attempt of
`interactivelyGenerateConfig`: the env answers, the chosen file name, the
review confirmation and the overwrite confirmation (the latter is only
consulted when the destination exists). -/
structure PassInput where
  answers : List (Str × EnvVal)
  filename : Str
  confirm : Bool
  confirmoverwrite : Bool
deriving DecidableEq, Repr

/-- Lines 102-107 of `src/config.ts`: build the result `Config`, taking
`value[0]` for array answers (such arrays are non-empty match arrays;
an empty one is mapped to `''`). -/
def flattenAnswers (a : List (Str × EnvVal)) : Config :=
  a.map fun p =>
    ( p.1
    , match p.2 with
      | EnvVal.s v => v
      | EnvVal.arr vs => (vs.head?).getD [] )

/-- One attempt of `interactivelyGenerateConfig` (`src/config.ts` lines
51-110), given the prompt answers of this attempt and the file-existence
oracle: the emitted events and, when the attempt commits, the returned
`Config`.  `none` means the source recurses into a fresh attempt.  Note
the control flow of the source: when the destination exists and the
overwrite is confirmed, the `writeFileSync` of line 90 runs AND control
falls through (the line-97 `!confirm` re-check is dead) to the
unconditional `writeFileSync` of line 100. -/
def wizardPass (fs : Str → Bool) (inp : PassInput) : List WizEvent × Option Config :=
  let path := str "./" ++ inp.filename ++ str ".cfg"
  let content := buildEnv (flattenAnswers inp.answers)
  if inp.confirm = false then ([], none)
  else if fs path then
    if inp.confirmoverwrite then
      ( [WizEvent.fileWrite path content, WizEvent.fileWrite path content]
      , some (flattenAnswers inp.answers) )
    else ([WizEvent.warn], none)
  else ([WizEvent.fileWrite path content], some (flattenAnswers inp.answers))

/-- `interactivelyGenerateConfig` (`src/config.ts` lines 51-110) run on a
list of per-attempt prompt answers: each non-committing attempt recurses
into the next one; `none` with the accumulated events models a run that
never commits within the supplied answers. -/
def interactivelyGenerateConfig (fs : Str → Bool) :
    List PassInput → List WizEvent × Option Config
  | [] => ([], none)
  | inp :: rest =>
    match wizardPass fs inp with
    | (evs, some cfg) => (evs, some cfg)
    | (evs, none) =>
      let r := interactivelyGenerateConfig fs rest
      (evs ++ r.1, r.2)

/-- Outcome of `selectGCPRegion`: whether the configured value was
accepted without prompting, whether the invalid-value warning was
printed, and the resulting region. -/
structure RegionSelection where
  usedConfig : Bool
  warned : Bool
  prompted : Bool
  region : Str
deriving DecidableEq, Repr

/-- `selectGCPRegion` of `src/config.ts` (lines 289-320), with the
`gcloud` listing output, the configured `GOOGLE_PROJECT_REGION` and the
interactive choice as inputs.  The source condition is
`region === '' || region === undefined || isInvalidRegion` with
`isInvalidRegion = !stdout.includes(region ?? '')`. -/
def selectGCPRegion (stdout : Str) (cfgRegion : Option Str) (promptChoice : Str) :
    RegionSelection :=
  let isInvalidRegion := !(jsIncludes stdout (cfgRegion.getD []))
  if cfgRegion = some [] ∨ cfgRegion = none ∨ isInvalidRegion = true then
    { usedConfig := false, warned := isInvalidRegion, prompted := true
    , region := promptChoice }
  else
    { usedConfig := true, warned := false, prompted := false
    , region := cfgRegion.getD [] }

/-- The regex `/(^|\/)\.\.($|\/)/` of `selectGoogleCloudProject` line
150: a `..` path segment at the start, the end, or between slashes. -/
def hasDotDotTraversal (s : Str) : Bool :=
  s == str ".." || (s.take 3) == str "../"
    || (s.reverse.take 3) == (str "/..").reverse || jsIncludes s (str "/../")

/-- Outcome of `selectGoogleCloudProject`, interactive creation of a new
project left out of scope (it happens after the prompt). -/
structure ProjectSelection where
  usedConfig : Bool
  warned : Bool
  prompted : Bool
  project : Str
deriving DecidableEq, Repr

/-- `selectGoogleCloudProject` of `src/config.ts` (lines 142-201) up to
the prompt: `projectName = config.GOOGLE_PROJECT_NAME?.trim()`,
`isValidProjectName = stdout.includes(projectName ?? '') &&
!projectName?.match(traversal)`, accept on a truthy (present, non-empty)
valid name, warn on an invalid one, otherwise prompt silently. -/
def selectGoogleCloudProject (stdout : Str) (cfgName : Option Str)
    (promptChoice : Str) : ProjectSelection :=
  let projectName := cfgName.map jsTrim
  let isValidProjectName :=
    jsIncludes stdout (projectName.getD [])
      && !(projectName.elim false hasDotDotTraversal)
  if (projectName ≠ none ∧ projectName ≠ some []) ∧ isValidProjectName = true then
    { usedConfig := true, warned := false, prompted := false
    , project := projectName.getD [] }
  else if isValidProjectName = false then
    { usedConfig := false, warned := true, prompted := true
    , project := promptChoice }
  else
    { usedConfig := false, warned := false, prompted := true
    , project := promptChoice }

/-- The candidate list the interactive region/project prompt offers and
the spec's "authoritative list": one value per line of the command
output. -/
def authoritativeList (stdout : Str) : List Str := splitLines stdout

/-- A remote catalog entry (`ProjectData` of `part_000` lines 12-16). -/
structure ProjectData where
  repository : Str
  description : Str
  tabOffset : Option Nat
deriving DecidableEq, Repr

/-- The filter predicate of the autocomplete `source` callback in
`selectSipgateIOProject` (`src/config.ts` lines 235-245) and `startCLI`
(`part_000` lines 144-154): repository or description contains
`input?.toLowerCase() ?? ''`. -/
def projectMatches (input : Option Str) (project : ProjectData) : Bool :=
  jsIncludes (lowerStr project.repository) ((input.map lowerStr).getD [])
    || jsIncludes (lowerStr project.description) ((input.map lowerStr).getD [])

/-- The filtering stage of the autocomplete `source` callback of
`selectSipgateIOProject` (rendering of the kept entries preserves their
order and is omitted here). -/
def sipgateIOProjectSource (githubProjects : List ProjectData)
    (input : Option Str) : List ProjectData :=
  githubProjects.filter (projectMatches input)

/-- The character pool of `generateRandomGcpProjectId` (line 114). -/
def characters : Str := str "abcdefghijklmnopqrstuvwxyz0123456789"

/-- `generateRandomGcpProjectId` of `src/config.ts` (lines 112-124); the
draw `Math.floor(Math.random() * characters.length)` of iteration `i` is
the given `draws i`, a number below `characters.length = 36`.  Indexing
is `characters[randomIndex]`, in range for every draw. -/
def generateRandomGcpProjectId (draws : Nat → Fin 36) : Str :=
  let pfx := str "sipgateio-"
  let projectIdLength := 30 - pfx.length
  pfx ++ (List.range projectIdLength).map fun i => characters.getD (draws i).val ' '

/-- No leading and no trailing whitespace. -/
def noEdgeWs (l : Str) : Bool :=
  (match l.head? with
   | none => true
   | some c => !isJsWs c)
  && (match l.reverse.head? with
      | none => true
      | some c => !isJsWs c)

/-- A key that survives the save/load round trip unchanged: no edge
whitespace, no newline, no `=`, and no leading `#`. -/
def goodKey (k : Str) : Bool :=
  noEdgeWs k && !(k.any fun c => c == '\n' || c == '=') && !(jsStartsWith k '#')

/-- A value that survives the save/load round trip unchanged: no edge
whitespace, no newline, and no quote characters. -/
def goodVal (v : Str) : Bool :=
  noEdgeWs v && !(v.any fun c => c == '\n' || isQuote c)

/-- C1: with the review confirmed, the destination existing and the
overwrite confirmed, a terminating run of `interactivelyGenerateConfig`
performs TWO file writes of the destination (lines 90 and 100 of
`src/config.ts` both run), not the single save the claim states. -/
theorem interactivelyGenerateConfig_double_write :
    interactivelyGenerateConfig (fun _ => true)
        [⟨[], str "config", true, true⟩]
      = ( [ WizEvent.fileWrite (str "./config.cfg") []
          , WizEvent.fileWrite (str "./config.cfg") [] ]
        , some [] )
    ∧ (interactivelyGenerateConfig (fun _ => true)
        [⟨[], str "config", true, true⟩]).1.length = 2 := by
  exact ⟨by decide, by decide⟩

/-- C2 counterexample: for the names `abcdefg` (length 7) and
`abcdefghi` (length 9) the computed tab counts are `[1, 1]`, yet the
shorter name padded with its single tab only reaches column 8, short of
both the end column 9 of the longest name and the column 16 the longest
name reaches after its own tab. -/
theorem calculateTabs_claim_counterexample :
    calculateTabs ["abcdefg", "abcdefghi"] = [1, 1]
    ∧ colAfterTabs (String.length "abcdefg") 1 < String.length "abcdefghi"
    ∧ colAfterTabs (String.length "abcdefg") 1
        < colAfterTabs (String.length "abcdefghi") 1 := by
  exact ⟨by decide, by decide, by decide⟩

/-- C3 counterexample: a value with leading whitespace does not survive
the round trip — `save` writes `KEY= v` and `load` trims the value back
to `v`. -/
theorem roundtrip_counterexample :
    loadConfig (buildEnv [(str "KEY", str " v")]) = [(str "KEY", str "v")]
    ∧ loadConfig (buildEnv [(str "KEY", str " v")]) ≠ [(str "KEY", str " v")] := by
  exact ⟨by decide, by decide⟩

/-- C4 counterexample: on the line `KEY='a'b` (two quote-free runs) the
question's default is the whole match array `["a", "b"]`, not the first
maximal run `"a"` the claim describes. -/
theorem composeQuestion_default_counterexample :
    (composeQuestion (str "KEY=" ++ [sqChar] ++ str "a" ++ [sqChar] ++ str "b")
        []).default = some [str "a", str "b"]
    ∧ (quoteFreeRuns (jsTrim (sliceAfterEq
        (str "KEY=" ++ [sqChar] ++ str "a" ++ [sqChar] ++ str "b")))).head?
        = some (str "a")
    ∧ (composeQuestion (str "KEY=" ++ [sqChar] ++ str "a" ++ [sqChar] ++ str "b")
        []).default
      ≠ (quoteFreeRuns (jsTrim (sliceAfterEq
          (str "KEY=" ++ [sqChar] ++ str "a" ++ [sqChar] ++ str "b")))).head?.map
            (fun r => [r]) := by
  exact ⟨by decide, by decide, by decide⟩

/-- C6: on the malformed line `MALFORMED` (no `=`, no leading `#`) the
parser does not fail — its type has no error case — and instead emits one
question whose name is the mangled `MALFORME` (JS `slice(0, -1)` after
`indexOf` returned `-1`). -/
theorem extractQuestions_malformed_emits_question :
    (extractQuestions [str "MALFORMED"]).length = 1
    ∧ (extractQuestions [str "MALFORMED"]).map Question.name
        = [str "MALFORME"] := by
  exact ⟨by decide, by decide⟩

/-- C8 counterexample: the configured region `rope-w` is accepted without
any prompt or warning although it is not a member of the authoritative
list `["europe-west1"]` — the source only tests `stdout.includes`. -/
theorem selectGCPRegion_accept_counterexample :
    (selectGCPRegion (str "europe-west1") (some (str "rope-w")) (str "p")).prompted
        = false
    ∧ (selectGCPRegion (str "europe-west1") (some (str "rope-w")) (str "p")).warned
        = false
    ∧ str "rope-w" ∉ authoritativeList (str "europe-west1") := by
  exact ⟨by decide, by decide, by decide⟩

/-- C7: declining the review confirmation adds no event (in particular no
file write) and restarts the wizard on the remaining prompt answers;
declining the overwrite on an existing destination emits exactly the
warning, writes nothing, and restarts likewise. -/
theorem interactivelyGenerateConfig_decline_no_write :
    (∀ (fs : Str → Bool) (a : List (Str × EnvVal)) (f : Str) (ow : Bool)
        (rest : List PassInput),
      interactivelyGenerateConfig fs (⟨a, f, false, ow⟩ :: rest)
        = interactivelyGenerateConfig fs rest)
    ∧ (∀ (fs : Str → Bool) (a : List (Str × EnvVal)) (f : Str)
        (rest : List PassInput),
      fs (str "./" ++ f ++ str ".cfg") = true →
        interactivelyGenerateConfig fs (⟨a, f, true, false⟩ :: rest)
          = ( WizEvent.warn :: (interactivelyGenerateConfig fs rest).1
            , (interactivelyGenerateConfig fs rest).2 )) := by
  constructor
  · intro fs a f ow rest
    simp [interactivelyGenerateConfig, wizardPass]
  · intro fs a f rest h
    have h' : fs (str "./" ++ (f ++ str ".cfg")) = true := by
      rw [← List.append_assoc]; exact h
    simp [interactivelyGenerateConfig, wizardPass, h']

/-- C7 witness: a single declined overwrite on an existing `config.cfg`
warns and writes nothing. -/
theorem interactivelyGenerateConfig_decline_no_write_witness :
    interactivelyGenerateConfig (fun _ => true)
        [⟨[], str "config", true, false⟩]
      = ([WizEvent.warn], none) := by
  rw [interactivelyGenerateConfig_decline_no_write.2
    (fun _ => true) [] (str "config") [] rfl]
  decide

/-- Every character of the pool indexed by an in-range draw is a
lowercase letter or a digit. -/
theorem characters_getD_range :
    ∀ i : Fin 36,
      ('a' ≤ characters.getD i.val ' ' ∧ characters.getD i.val ' ' ≤ 'z')
      ∨ ('0' ≤ characters.getD i.val ' ' ∧ characters.getD i.val ' ' ≤ '9') := by
  decide

/-- C10: for every draw sequence the generated project id has exactly 30
characters, starts with `sipgateio-`, and its remaining 20 characters are
lowercase letters or digits. -/
theorem generateRandomGcpProjectId_shape (draws : Nat → Fin 36) :
    (generateRandomGcpProjectId draws).length = 30
    ∧ (generateRandomGcpProjectId draws).take 10 = str "sipgateio-"
    ∧ ∀ c ∈ (generateRandomGcpProjectId draws).drop 10,
        ('a' ≤ c ∧ c ≤ 'z') ∨ ('0' ≤ c ∧ c ≤ '9') := by
  have hlen : (str "sipgateio-").length = 10 := by decide
  refine ⟨?_, ?_, ?_⟩
  · simp only [generateRandomGcpProjectId]
    rw [List.length_append, List.length_map, List.length_range, hlen]
  · simp only [generateRandomGcpProjectId]
    rw [← hlen, List.take_left]
  · simp only [generateRandomGcpProjectId]
    intro c hc
    rw [← hlen, List.drop_left] at hc
    obtain ⟨i, _, rfl⟩ := List.mem_map.1 hc
    exact characters_getD_range (draws i)

/-- C10 witness: the shape theorem applied to the constant draw 0. -/
theorem generateRandomGcpProjectId_shape_witness :
    (generateRandomGcpProjectId (fun _ => (0 : Fin 36))).length = 30
    ∧ (('a' ≤ 'a' ∧ 'a' ≤ 'z') ∨ ('0' ≤ 'a' ∧ 'a' ≤ '9')) :=
  ⟨(generateRandomGcpProjectId_shape (fun _ => 0)).1,
   (generateRandomGcpProjectId_shape (fun _ => 0)).2.2 'a' (by decide)⟩

/-- Closed form of the rendered column: after at least one tab the cursor
sits at tab stop `len / 8 + k`. -/
theorem colAfterTabs_succ_eq (len k : Nat) :
    colAfterTabs len (k + 1) = 8 * (len / 8 + (k + 1)) := by
  induction k with
  | zero => simp [colAfterTabs, tabStop]
  | succ j ih =>
    have : colAfterTabs len (j + 1 + 1) = tabStop (colAfterTabs len (j + 1)) := rfl
    rw [this, ih]
    unfold tabStop
    omega

/-- Every member's length is bounded by `maxLenOf`. -/
theorem le_maxLenOf (names : List String) (s : String) (h : s ∈ names) :
    s.length ≤ maxLenOf names := by
  induction names with
  | nil => cases h
  | cons a t ih =>
    have hsplit : maxLenOf (a :: t) = Nat.max a.length (maxLenOf t) := rfl
    rcases List.mem_cons.1 h with rfl | h2
    · rw [hsplit]; exact Nat.le_max_left _ _
    · rw [hsplit]; exact le_trans (ih h2) (Nat.le_max_right _ _)

/-- C2 (amended): the tab count of every name is
`(maxLen - len) / 8 + 1`, and whenever `len % 8 ≤ maxLen % 8` — and only
then — the padded name reaches at least the column the longest name
reaches after its single tab, with the minimal number of tabs;
`calculateTabs_claim_counterexample` shows the unconditional alignment
guarantee of the claim fails when `len % 8 > maxLen % 8`. -/
theorem calculateTabs_amended (names : List String) :
    calculateTabs names
        = names.map (fun s => (maxLenOf names - s.length) / 8 + 1)
    ∧ ∀ s ∈ names, s.length % 8 ≤ maxLenOf names % 8 →
        (colAfterTabs s.length ((maxLenOf names - s.length) / 8 + 1)
            ≥ colAfterTabs (maxLenOf names) 1
        ∧ ∀ k < (maxLenOf names - s.length) / 8 + 1,
            colAfterTabs s.length k < colAfterTabs (maxLenOf names) 1) := by
  constructor
  · simp only [calculateTabs, List.map_map]
    rfl
  · intro s hs hmod
    have hle := le_maxLenOf names s hs
    have h1 : colAfterTabs (maxLenOf names) 1 = 8 * (maxLenOf names / 8 + 1) :=
      colAfterTabs_succ_eq (maxLenOf names) 0
    constructor
    · have h2 : colAfterTabs s.length ((maxLenOf names - s.length) / 8 + 1)
          = 8 * (s.length / 8 + ((maxLenOf names - s.length) / 8 + 1)) :=
        colAfterTabs_succ_eq s.length ((maxLenOf names - s.length) / 8)
      rw [h1, h2]
      omega
    · intro k hk
      cases k with
      | zero =>
        have h0 : colAfterTabs s.length 0 = s.length := rfl
        rw [h0, h1]
        omega
      | succ j =>
        rw [colAfterTabs_succ_eq, h1]
        omega

/-- C2 witness: the amended theorem at the spec's own example lengths
`[3, 11, 20]`, where `3 % 8 ≤ 20 % 8` holds. -/
theorem calculateTabs_amended_witness :
    colAfterTabs (String.length "abc")
        ((maxLenOf ["abc", "abcdefghijk", "abcdefghijklmnopqrst"]
          - String.length "abc") / 8 + 1)
      ≥ colAfterTabs (maxLenOf ["abc", "abcdefghijk", "abcdefghijklmnopqrst"]) 1 :=
  ((calculateTabs_amended ["abc", "abcdefghijk", "abcdefghijklmnopqrst"]).2
    "abc" (by decide) (by decide)).1

/-- `jsIncludes` is substring containment: some decomposition
`hay = pre ++ sub ++ post` exists exactly when the scan succeeds. -/
theorem jsIncludes_iff (hay sub : Str) :
    jsIncludes hay sub = true ↔ ∃ pre post, hay = pre ++ sub ++ post := by
  unfold jsIncludes
  rw [List.any_eq_true]
  constructor
  · rintro ⟨i, _, heq⟩
    rw [beq_iff_eq] at heq
    refine ⟨hay.take i, (hay.drop i).drop sub.length, ?_⟩
    calc hay = hay.take i ++ hay.drop i := (List.take_append_drop i hay).symm
      _ = hay.take i
          ++ ((hay.drop i).take sub.length ++ (hay.drop i).drop sub.length) := by
            rw [List.take_append_drop, List.take_append_drop,
              List.take_append_drop]
      _ = hay.take i ++ (sub ++ (hay.drop i).drop sub.length) := by rw [heq]
      _ = hay.take i ++ sub ++ (hay.drop i).drop sub.length := by
            rw [List.append_assoc]
  · rintro ⟨pre, post, rfl⟩
    refine ⟨pre.length, ?_, ?_⟩
    · rw [List.mem_range]
      have : pre.length ≤ (pre ++ sub ++ post).length := by
        simp [List.length_append]
      omega
    · rw [beq_iff_eq, List.append_assoc, List.drop_left, List.take_left]

/-- C9: the autocomplete source keeps exactly the catalog entries whose
repository or description contains the query as a case-insensitive
substring, keeps them in catalog order (the result is a sublist), and on
the catalog `[sipgateio-sendsms-node, sipgateio-incomingcall-node]` the
query `sms` keeps only the first entry. -/
theorem sipgateIOProjectSource_fuzzy :
    (∀ (ps : List ProjectData) (q : Str) (p : ProjectData),
      p ∈ sipgateIOProjectSource ps (some q)
        ↔ p ∈ ps
          ∧ ((∃ pre post, lowerStr p.repository = pre ++ lowerStr q ++ post)
            ∨ (∃ pre post, lowerStr p.description = pre ++ lowerStr q ++ post)))
    ∧ (∀ (ps : List ProjectData) (q : Option Str),
        List.Sublist (sipgateIOProjectSource ps q) ps)
    ∧ sipgateIOProjectSource
        [ ⟨str "sipgateio-sendsms-node", [], none⟩
        , ⟨str "sipgateio-incomingcall-node", [], none⟩ ]
        (some (str "sms"))
        = [⟨str "sipgateio-sendsms-node", [], none⟩] := by
  refine ⟨?_, ?_, by decide⟩
  · intro ps q p
    rw [sipgateIOProjectSource, List.mem_filter, projectMatches]
    simp only [Option.map_some', Option.getD_some, Bool.or_eq_true,
      jsIncludes_iff]
  · intro ps q
    exact List.filter_sublist ps

/-- C4 (amended): the three spec examples hold with the default read as
the match array — a singleton of the run in the single-run cases, absent
(never the empty string) when no quote-free run exists — and in general
the default is absent exactly when no run exists, while the first element
of a present default is the first maximal quote-free run.
`composeQuestion_default_counterexample` shows the default is the whole
array, not just the first run, once several runs exist. -/
theorem composeQuestion_default_amended :
    (composeQuestion (str "KEY=" ++ [dq] ++ str "hello world" ++ [dq]) []).default
        = some [str "hello world"]
    ∧ (composeQuestion (str "KEY=bareword") []).default = some [str "bareword"]
    ∧ (composeQuestion (str "KEY=") []).default = none
    ∧ (∀ line comment,
        ((composeQuestion line comment).default = none
          ↔ quoteFreeRuns (jsTrim (sliceAfterEq line)) = []))
    ∧ (∀ line comment rs,
        (composeQuestion line comment).default = some rs →
          rs.head? = (quoteFreeRuns (jsTrim (sliceAfterEq line))).head?) := by
  refine ⟨by decide, by decide, by decide, ?_, ?_⟩
  · intro line comment
    simp only [composeQuestion]
    by_cases h : (quoteFreeRuns (jsTrim (sliceAfterEq line))).isEmpty
    · have he : quoteFreeRuns (jsTrim (sliceAfterEq line)) = [] :=
        List.isEmpty_iff.1 h
      simp [h, he]
    · have hne : quoteFreeRuns (jsTrim (sliceAfterEq line)) ≠ [] := by
        intro e
        exact h (List.isEmpty_iff.2 e)
      simp [h, hne]
  · intro line comment rs hrs
    simp only [composeQuestion] at hrs
    by_cases h : (quoteFreeRuns (jsTrim (sliceAfterEq line))).isEmpty
    · simp [h] at hrs
    · simp [h] at hrs
      rw [hrs]

/-- C4 witness: the general head component of the amended theorem at the
concrete line `KEY=x`. -/
theorem composeQuestion_default_amended_witness :
    ([str "x"] : List Str).head?
      = (quoteFreeRuns (jsTrim (sliceAfterEq (str "KEY=x")))).head? :=
  composeQuestion_default_amended.2.2.2.2 (str "KEY=x") [] [str "x"] (by decide)

/-- The empty needle is always included (JS `includes('')`). -/
theorem jsIncludes_nil (hay : Str) : jsIncludes hay [] = true := by
  unfold jsIncludes
  rw [List.any_eq_true]
  exact ⟨0, by simp [List.mem_range], by simp⟩

/-- The empty string has no traversal segment. -/
theorem hasDotDotTraversal_nil : hasDotDotTraversal [] = false := by decide

/-- C8 (amended): both validated selectors accept the configured value
without prompting exactly when it is present, non-empty (after trimming,
for the project) and a SUBSTRING of the raw listing output — not
necessarily a member of the authoritative list, as
`selectGCPRegion_accept_counterexample` shows — with the project selector
additionally rejecting parent-directory traversal; the region selector
warns exactly when the candidate fails the substring test (so an absent
or empty candidate falls back silently), and a prompting run always
returns the interactive choice, never a failure. -/
theorem validatedFieldSelector_amended :
    (∀ (stdout : Str) (cand : Option Str) (p : Str),
      ((selectGCPRegion stdout cand p).prompted = false
        ↔ ∃ r, cand = some r ∧ r ≠ [] ∧ jsIncludes stdout r = true))
    ∧ (∀ (stdout : Str) (cand : Option Str) (p : Str),
        ((selectGCPRegion stdout cand p).warned = true
          ↔ jsIncludes stdout (cand.getD []) = false))
    ∧ (∀ (stdout : Str) (cand : Option Str) (p : Str),
        (selectGCPRegion stdout cand p).prompted = true →
          (selectGCPRegion stdout cand p).region = p)
    ∧ (∀ (stdout : Str) (cand : Option Str) (p : Str),
        (selectGCPRegion stdout cand p).prompted = false →
          cand = some (selectGCPRegion stdout cand p).region)
    ∧ (∀ (stdout : Str) (cand : Option Str) (p : Str),
        ((selectGoogleCloudProject stdout cand p).prompted = false
          ↔ ∃ r, cand = some r ∧ jsTrim r ≠ []
              ∧ jsIncludes stdout (jsTrim r) = true
              ∧ hasDotDotTraversal (jsTrim r) = false))
    ∧ (∀ (stdout : Str) (cand : Option Str) (p : Str),
        (selectGoogleCloudProject stdout cand p).prompted = true →
          (selectGoogleCloudProject stdout cand p).project = p) := by
  refine ⟨?_, ?_, ?_, ?_, ?_, ?_⟩
  · intro stdout cand p
    cases cand with
    | none => simp [selectGCPRegion]
    | some r =>
      by_cases hr : r = []
      · subst hr; simp [selectGCPRegion]
      · cases hj : jsIncludes stdout r with
        | false => simp [selectGCPRegion, hj, hr]
        | true => simp [selectGCPRegion, hj, hr]
  · intro stdout cand p
    cases cand with
    | none => simp [selectGCPRegion, jsIncludes_nil]
    | some r =>
      by_cases hr : r = []
      · subst hr; simp [selectGCPRegion, jsIncludes_nil]
      · cases hj : jsIncludes stdout r with
        | false => simp [selectGCPRegion, hj, hr]
        | true => simp [selectGCPRegion, hj, hr]
  · intro stdout cand p
    cases cand with
    | none => simp [selectGCPRegion]
    | some r =>
      by_cases hr : r = []
      · subst hr; simp [selectGCPRegion]
      · cases hj : jsIncludes stdout r with
        | false => simp [selectGCPRegion, hj, hr]
        | true => simp [selectGCPRegion, hj, hr]
  · intro stdout cand p
    cases cand with
    | none => simp [selectGCPRegion]
    | some r =>
      by_cases hr : r = []
      · subst hr; simp [selectGCPRegion]
      · cases hj : jsIncludes stdout r with
        | false => simp [selectGCPRegion, hj, hr]
        | true => simp [selectGCPRegion, hj, hr]
  · intro stdout cand p
    cases cand with
    | none => simp [selectGoogleCloudProject, jsIncludes_nil]
    | some r =>
      by_cases ht : jsTrim r = []
      · simp [selectGoogleCloudProject, ht, jsIncludes_nil,
          hasDotDotTraversal_nil]
      · cases hj : jsIncludes stdout (jsTrim r) with
        | false => simp [selectGoogleCloudProject, hj, ht]
        | true =>
          cases hd : hasDotDotTraversal (jsTrim r) with
          | false => simp [selectGoogleCloudProject, hj, ht, hd]
          | true => simp [selectGoogleCloudProject, hj, ht, hd]
  · intro stdout cand p
    cases cand with
    | none => simp [selectGoogleCloudProject, jsIncludes_nil]
    | some r =>
      by_cases ht : jsTrim r = []
      · simp [selectGoogleCloudProject, ht, jsIncludes_nil,
          hasDotDotTraversal_nil]
      · cases hj : jsIncludes stdout (jsTrim r) with
        | false => simp [selectGoogleCloudProject, hj, ht]
        | true =>
          cases hd : hasDotDotTraversal (jsTrim r) with
          | false => simp [selectGoogleCloudProject, hj, ht, hd]
          | true => simp [selectGoogleCloudProject, hj, ht, hd]

/-- C8 witness: with no configured region the selector prompts and
returns the interactive choice. -/
theorem validatedFieldSelector_amended_witness :
    (selectGCPRegion (str "a") none (str "x")).region = str "x" :=
  validatedFieldSelector_amended.2.2.1 (str "a") none (str "x") (by decide)

/-- Inserting under key `k` makes exactly the keys of `m` plus `k`
present. -/
theorem hasKey_objInsert_iff (m : Config) (k v k' : Str) :
    hasKey (objInsert m k v) k' = true ↔ (hasKey m k' = true ∨ k = k') := by
  unfold hasKey objInsert
  by_cases hm : m.any (fun p => p.1 == k) = true
  · rw [if_pos hm]
    simp only [List.any_map, List.any_eq_true, Function.comp]
    rw [List.any_eq_true] at hm
    obtain ⟨p0, hp0, hp0k⟩ := hm
    rw [beq_iff_eq] at hp0k
    constructor
    · rintro ⟨p, hp, hpk⟩
      by_cases hq : p.1 = k
      · right
        simpa [hq] using hpk
      · left
        exact ⟨p, hp, by simpa [hq] using hpk⟩
    · rintro (⟨p, hp, hpk⟩ | rfl)
      · refine ⟨p, hp, ?_⟩
        by_cases hq : p.1 = k
        · rw [beq_iff_eq] at hpk
          simp [hq, ← hpk]
        · simpa [hq] using hpk
      · exact ⟨p0, hp0, by simp [hp0k]⟩
  · rw [if_neg hm]
    simp only [List.any_append, List.any_cons, List.any_nil,
      Bool.or_false, Bool.or_eq_true, beq_iff_eq]

/-- A key is present in the loaded fold exactly when the accumulator has
it or some processed line declares it. -/
theorem hasKey_loadFold (ls : List Str) (acc : Config) (k : Str) :
    hasKey (ls.foldl loadStep acc) k = true
      ↔ (hasKey acc k = true ∨ ∃ line ∈ ls, (extractEnv line).1 = k) := by
  induction ls generalizing acc with
  | nil => simp
  | cons l t ih =>
    rw [List.foldl_cons, ih]
    have hstep : loadStep acc l
        = objInsert acc (extractEnv l).1
            (((extractEnv l).2.bind List.head?).getD []) := rfl
    rw [hstep, hasKey_objInsert_iff]
    constructor
    · rintro ((h | h) | ⟨line, hline, hk⟩)
      · exact Or.inl h
      · exact Or.inr ⟨l, List.mem_cons_self l t, h⟩
      · exact Or.inr ⟨line, List.mem_cons_of_mem _ hline, hk⟩
    · rintro (h | ⟨line, hline, hk⟩)
      · exact Or.inl (Or.inl h)
      · rcases List.mem_cons.1 hline with rfl | h2
        · exact Or.inl (Or.inr hk)
        · exact Or.inr ⟨line, h2, hk⟩

/-- Lookup succeeds exactly on present keys. -/
theorem lookupCfg_isSome_iff (m : Config) (k : Str) :
    (lookupCfg m k).isSome = true ↔ hasKey m k = true := by
  simp [lookupCfg, hasKey, List.find?_isSome, List.any_eq_true]

/-- C5: a variable is present in the loaded `Config` exactly when some
surviving line of the file declares it — so a variable configured as the
empty string (its line yields an entry with value `''`) is represented
differently from an unconfigured variable (no entry at all, lookup
`none`): on the file `KEY=`, `KEY` maps to the empty string while any
other name is absent.  Values of present entries are strings by the type
of `Config`. -/
theorem loadConfig_presence (content : Str) (k : Str) :
    ((lookupCfg (loadConfig content) k).isSome = true
      ↔ ∃ line ∈ configLines content, (extractEnv line).1 = k)
    ∧ lookupCfg (loadConfig (str "KEY=")) (str "KEY") = some []
    ∧ lookupCfg (loadConfig (str "KEY=")) (str "OTHER") = none := by
  refine ⟨?_, by decide, by decide⟩
  rw [lookupCfg_isSome_iff]
  unfold loadConfig
  rw [hasKey_loadFold]
  simp [hasKey]

/-- `dropWhile` is the identity when the head fails the predicate. -/
theorem dropWhile_eq_self_of_head (p : Char → Bool) (l : Str)
    (h : ∀ c, l.head? = some c → p c = false) : l.dropWhile p = l := by
  cases l with
  | nil => rfl
  | cons a t =>
    rw [List.dropWhile_cons, h a rfl]
    simp

/-- The first character of an edge-whitespace-free string is not
whitespace. -/
theorem noEdgeWs_head (l : Str) (h : noEdgeWs l = true) :
    ∀ c, l.head? = some c → isJsWs c = false := by
  intro c hc
  unfold noEdgeWs at h
  rw [hc, Bool.and_eq_true] at h
  simpa using h.1

/-- The last character of an edge-whitespace-free string is not
whitespace. -/
theorem noEdgeWs_last (l : Str) (h : noEdgeWs l = true) :
    ∀ c, l.reverse.head? = some c → isJsWs c = false := by
  intro c hc
  unfold noEdgeWs at h
  rw [hc, Bool.and_eq_true] at h
  simpa using h.2

/-- Trimming an edge-whitespace-free string changes nothing. -/
theorem jsTrim_eq_self (l : Str) (h : noEdgeWs l = true) : jsTrim l = l := by
  unfold jsTrim
  rw [dropWhile_eq_self_of_head isJsWs l (noEdgeWs_head l h)]
  rw [dropWhile_eq_self_of_head isJsWs l.reverse (noEdgeWs_last l h)]
  exact List.reverse_reverse l

/-- A serialized `KEY=VALUE` line with edge-whitespace-free key and value
survives trimming unchanged. -/
theorem jsTrim_keyval (k v : Str) (hk : noEdgeWs k = true)
    (hv : noEdgeWs v = true) :
    jsTrim (k ++ '=' :: v) = k ++ '=' :: v := by
  unfold jsTrim
  have h1 : (k ++ '=' :: v).dropWhile isJsWs = k ++ '=' :: v := by
    apply dropWhile_eq_self_of_head
    intro c hc
    cases k with
    | nil =>
      simp at hc
      rw [← hc]
      decide
    | cons a t =>
      simp at hc
      rw [← hc]
      exact noEdgeWs_head _ hk a rfl
  rw [h1]
  have h2 : (k ++ '=' :: v).reverse.dropWhile isJsWs = (k ++ '=' :: v).reverse := by
    apply dropWhile_eq_self_of_head
    intro c hc
    rw [List.reverse_append, List.reverse_cons] at hc
    cases hv2 : v.reverse with
    | nil =>
      rw [hv2] at hc
      simp at hc
      rw [← hc]
      decide
    | cons b t =>
      rw [hv2] at hc
      simp at hc
      rw [← hc]
      exact noEdgeWs_last v hv b (by rw [hv2]; rfl)
  rw [h2, List.reverse_reverse]

/-- Unpacking `goodKey`. -/
theorem goodKey_parts (k : Str) (h : goodKey k = true) :
    noEdgeWs k = true ∧ (∀ c ∈ k, c ≠ '\n' ∧ c ≠ '=')
    ∧ jsStartsWith k '#' = false := by
  unfold goodKey at h
  rw [Bool.and_eq_true, Bool.and_eq_true] at h
  refine ⟨h.1.1, ?_, by simpa using h.2⟩
  intro c hc
  have h2 := h.1.2
  rw [Bool.not_eq_true'] at h2
  rw [List.any_eq_false] at h2
  have h3 := h2 c hc
  constructor <;> intro he <;> subst he <;> simp at h3

/-- Unpacking `goodVal`. -/
theorem goodVal_parts (v : Str) (h : goodVal v = true) :
    noEdgeWs v = true ∧ ∀ c ∈ v, c ≠ '\n' ∧ isQuote c = false := by
  unfold goodVal at h
  rw [Bool.and_eq_true] at h
  refine ⟨h.1, ?_⟩
  intro c hc
  have h2 := h.2
  rw [Bool.not_eq_true'] at h2
  rw [List.any_eq_false] at h2
  have h3 := h2 c hc
  constructor
  · intro he
    subst he
    simp at h3
  · cases hq : isQuote c
    · rfl
    · exact absurd (by simp [hq]) h3

/-- The first `=` of a serialized line sits right after the key. -/
theorem firstIdx_eq_append (k v : Str) (hk : ∀ c ∈ k, c ≠ '=') :
    firstIdx '=' (k ++ '=' :: v) = some k.length := by
  induction k with
  | nil => simp [firstIdx]
  | cons a t ih =>
    have ha : (a == '=') = false := by
      rw [beq_eq_false_iff_ne]
      exact hk a (List.mem_cons_self a t)
    simp [firstIdx, ha, ih (fun c hc => hk c (List.mem_cons_of_mem a hc))]

/-- On a serialized `KEY=VALUE` line with a good key and value,
`extractEnv` returns the key and the match array of the raw value. -/
theorem extractEnv_keyval (k v : Str) (hk : goodKey k = true)
    (hv : goodVal v = true) :
    extractEnv (k ++ '=' :: v)
      = (k, match quoteFreeRuns v with
            | [] => none
            | rs => some rs) := by
  obtain ⟨hkE, hkC, _⟩ := goodKey_parts k hk
  obtain ⟨hvE, _⟩ := goodVal_parts v hv
  have hidx := firstIdx_eq_append k v (fun c hc => (hkC c hc).2)
  have htake : (k ++ '=' :: v).take k.length = k := List.take_left k ('=' :: v)
  have hdrop : (k ++ '=' :: v).drop (k.length + 1) = v := by
    rw [List.append_cons]
    have hlen : (k ++ ['=']).length = k.length + 1 := by simp
    rw [← hlen, List.drop_left]
  simp only [extractEnv, sliceBeforeEq, sliceAfterEq, hidx]
  rw [htake, hdrop, jsTrim_eq_self k hkE, jsTrim_eq_self v hvE]

/-- The scanner on a quote-free string returns the pending run followed
by the whole rest as a single run. -/
theorem quoteFreeRunsAux_noquote :
    ∀ (v : Str), (∀ c ∈ v, isQuote c = false) →
    ∀ cur : Str,
      quoteFreeRunsAux v cur
        = if (cur.reverse ++ v).isEmpty then [] else [cur.reverse ++ v] := by
  intro v
  induction v with
  | nil =>
    intro _ cur
    by_cases hc : cur = []
    · subst hc
      simp [quoteFreeRunsAux]
    · have h1 : cur.isEmpty = false := by simpa [List.isEmpty_iff] using hc
      simp [quoteFreeRunsAux, h1, hc]
  | cons c t ih =>
    intro hv cur
    have hc : isQuote c = false := hv c (List.mem_cons_self c t)
    have ht : ∀ x ∈ t, isQuote x = false :=
      fun x hx => hv x (List.mem_cons_of_mem c hx)
    have hne1 : (((c :: cur).reverse ++ t)).isEmpty = false := by
      simp [List.isEmpty_iff]
    have hne2 : ((cur.reverse ++ (c :: t))).isEmpty = false := by
      simp [List.isEmpty_iff]
    simp only [quoteFreeRunsAux, hc, Bool.false_eq_true, if_false]
    rw [ih ht (c :: cur), hne1, hne2]
    simp [List.reverse_cons, List.append_assoc]

/-- The match array of a quote-free string: `null` when empty, otherwise
the single run that is the whole string. -/
theorem quoteFreeRuns_noquote (v : Str) (hv : ∀ c ∈ v, isQuote c = false) :
    quoteFreeRuns v = if v.isEmpty then [] else [v] := by
  unfold quoteFreeRuns
  rw [quoteFreeRunsAux_noquote v hv []]
  simp

/-- A newline-free string splits into itself alone. -/
theorem splitLines_no_nl (l : Str) (h : '\n' ∉ l) : splitLines l = [l] := by
  induction l with
  | nil => rfl
  | cons c t ih =>
    have hc : (c == '\n') = false := by
      rw [beq_eq_false_iff_ne]
      intro e
      exact h (by simp [e])
    have ht : '\n' ∉ t := fun m => h (List.mem_cons_of_mem c m)
    simp [splitLines, hc, ih ht]

/-- Splitting after a newline-free first line peels it off. -/
theorem splitLines_append_nl (l t : Str) (h : '\n' ∉ l) :
    splitLines (l ++ '\n' :: t) = l :: splitLines t := by
  induction l with
  | nil => simp [splitLines]
  | cons c l2 ih =>
    have hc : (c == '\n') = false := by
      rw [beq_eq_false_iff_ne]
      intro e
      exact h (by simp [e])
    have hl2 : '\n' ∉ l2 := fun m => h (List.mem_cons_of_mem c m)
    rw [List.cons_append]
    simp [splitLines, hc, ih hl2]

/-- Splitting inverts joining for a non-empty list of newline-free
lines. -/
theorem splitLines_joinLines :
    ∀ (ls : List Str), (∀ l ∈ ls, '\n' ∉ l) → ls ≠ [] →
      splitLines (joinLines ls) = ls := by
  intro ls
  induction ls with
  | nil => intro _ hne; cases hne rfl
  | cons a t ih =>
    intro h _
    cases t with
    | nil =>
      simp only [joinLines]
      exact splitLines_no_nl a (h a (List.mem_cons_self a []))
    | cons b t2 =>
      have hjoin : joinLines (a :: b :: t2) = a ++ '\n' :: joinLines (b :: t2) := rfl
      rw [hjoin, splitLines_append_nl a _ (h a (List.mem_cons_self a _))]
      rw [ih (fun l hl => h l (List.mem_cons_of_mem a hl)) (by simp)]

/-- A serialized line with good key and value passes the line filter of
`loadConfig`. -/
theorem buildLine_filter_pred (k v : Str) (hk : goodKey k = true)
    (hv : goodVal v = true) :
    (!(jsStartsWith (k ++ '=' :: v) '#') && !(jsTrim (k ++ '=' :: v)).isEmpty)
      = true := by
  obtain ⟨hkE, _, hkH⟩ := goodKey_parts k hk
  obtain ⟨hvE, _⟩ := goodVal_parts v hv
  rw [jsTrim_keyval k v hkE hvE]
  have h1 : jsStartsWith (k ++ '=' :: v) '#' = false := by
    cases k with
    | nil => simp [jsStartsWith]
    | cons a t =>
      simp only [jsStartsWith] at hkH ⊢
      exact hkH
  have h2 : (k ++ '=' :: v).isEmpty = false := by
    cases k <;> simp
  rw [h1, h2]
  rfl

/-- Folding `loadStep` over the serialized lines of a good, duplicate-free
config appends exactly its pairs. -/
theorem loadFold_good :
    ∀ (C : List (Str × Str)) (acc : Config),
      (∀ p ∈ C, goodKey p.1 = true ∧ goodVal p.2 = true) →
      ((C.map Prod.fst).Nodup) →
      (∀ k2 ∈ C.map Prod.fst, hasKey acc k2 = false) →
      (C.map (fun q => q.1 ++ '=' :: q.2)).foldl loadStep acc = acc ++ C := by
  intro C
  induction C with
  | nil =>
    intro acc _ _ _
    simp
  | cons p t ih =>
    intro acc hgood hnd hdisj
    rw [List.map_cons, List.foldl_cons]
    have hgp := hgood p (List.mem_cons_self p t)
    have hstep : loadStep acc (p.1 ++ '=' :: p.2) = objInsert acc p.1 p.2 := by
      unfold loadStep
      rw [extractEnv_keyval p.1 p.2 hgp.1 hgp.2]
      obtain ⟨_, hvC⟩ := goodVal_parts p.2 hgp.2
      rw [quoteFreeRuns_noquote p.2 (fun c hc => (hvC c hc).2)]
      by_cases hp2 : p.2.isEmpty
      · have he : p.2 = [] := List.isEmpty_iff.1 hp2
        rw [if_pos hp2]
        simp [he]
      · rw [if_neg hp2]
        simp
    rw [hstep]
    have hfresh : hasKey acc p.1 = false := hdisj p.1 (by simp)
    have hins : objInsert acc p.1 p.2 = acc ++ [p] := by
      unfold objInsert
      unfold hasKey at hfresh
      rw [if_neg (by simp [hfresh])]
    rw [hins]
    have hnd2 : (t.map Prod.fst).Nodup := by
      simp only [List.map_cons] at hnd
      exact (List.nodup_cons.1 hnd).2
    have hp1notin : p.1 ∉ t.map Prod.fst := by
      simp only [List.map_cons] at hnd
      exact (List.nodup_cons.1 hnd).1
    have hdisj2 : ∀ k2 ∈ t.map Prod.fst, hasKey (acc ++ [p]) k2 = false := by
      intro k2 hk2
      unfold hasKey
      rw [List.any_append]
      have ha : acc.any (fun q => q.1 == k2) = false :=
        hdisj k2 (by simp only [List.map_cons]; exact List.mem_cons_of_mem _ hk2)
      rw [ha]
      simp only [List.any_cons, List.any_nil, Bool.or_false, Bool.false_or]
      rw [beq_eq_false_iff_ne]
      intro e
      exact hp1notin (e ▸ hk2)
    rw [ih (acc ++ [p]) (fun q hq => hgood q (List.mem_cons_of_mem p hq))
      hnd2 hdisj2]
    simp

/-- C3 (amended): the save/load round trip is the identity on every
config whose keys carry no edge whitespace, newline, `=` or leading `#`,
whose values carry no edge whitespace, newline or quote character, and
whose keys are pairwise distinct; `roundtrip_counterexample` shows it
fails without these conditions (there, on a value with leading
whitespace). -/
theorem loadConfig_buildEnv_roundtrip (C : Config)
    (h : ∀ p ∈ C, goodKey p.1 = true ∧ goodVal p.2 = true)
    (hnd : (C.map Prod.fst).Nodup) :
    loadConfig (buildEnv C) = C := by
  cases C with
  | nil => decide
  | cons p t =>
    have hlines : configLines (buildEnv (p :: t))
        = (p :: t).map (fun q => q.1 ++ '=' :: q.2) := by
      unfold configLines buildEnv
      rw [splitLines_joinLines ((p :: t).map fun q => q.1 ++ '=' :: q.2)
        ?nonl (by simp)]
      · exact List.filter_eq_self.2 (by
          intro line hline
          obtain ⟨q, hq, rfl⟩ := List.mem_map.1 hline
          exact buildLine_filter_pred q.1 q.2 (h q hq).1 (h q hq).2)
      case nonl =>
        intro l hl
        obtain ⟨q, hq, rfl⟩ := List.mem_map.1 hl
        intro hmem
        rcases List.mem_append.1 hmem with hm | hm
        · exact ((goodKey_parts q.1 (h q hq).1).2.1 _ hm).1 rfl
        · rcases List.mem_cons.1 hm with e | hm2
          · exact absurd e (by decide)
          · exact ((goodVal_parts q.2 (h q hq).2).2 _ hm2).1 rfl
    unfold loadConfig
    rw [hlines]
    rw [loadFold_good (p :: t) [] h hnd (fun k2 _ => rfl)]
    simp

/-- C3 witness: the amended round trip on a concrete two-entry config,
one value being empty. -/
theorem loadConfig_buildEnv_roundtrip_witness :
    loadConfig (buildEnv [(str "KEY", str "VALUE"), (str "K2", [])])
      = [(str "KEY", str "VALUE"), (str "K2", [])] :=
  loadConfig_buildEnv_roundtrip
    [(str "KEY", str "VALUE"), (str "K2", [])] (by decide) (by decide)
